import Mathlib

/-!
Verification development for the real-time ASR translator repository
(`main.py`, `speech_to_text.py`, `experiments/stream_asr.py`,
`experiments/translate_text.py`).

The Python sources are shallowly embedded: audio buffers are `List Int`
(int16 samples), float32 audio is `ℚ` (the conversion `s / 32768.0` is exact
for int16 inputs), texts are `String`, and the fallible external calls
(`model.transcribe`, `langdetect.detect`) are passed in as `Except`-valued
arguments so that exception propagation versus catching is explicit.
-/

/-! ### Window extraction

`main.py` `process_loop` (inner loop body):
`window = buf[:WINDOW_SAMPS]; buf = buf[HOP_SAMPS:]` — the *oldest*
`WINDOW_SAMPS` samples are taken.

`speech_to_text.py` `process_loop` (inner loop body):
`window = buf[-WINDOW_SAMPLES:]; buf = buf[HOP_SAMPLES:]` — the *most recent*
`WINDOW_SAMPLES` samples are taken.

Both are guarded by `buf.size >= WINDOW_SAMPS`.
-/

/-- One window extraction as performed by `main.py`:
if the buffer holds at least `w` samples, return the oldest `w` samples as the
window together with the buffer with its oldest `h` samples removed;
otherwise nothing, buffer unchanged. -/
def try_take_window_main (w h : Nat) (buf : List Int) : Option (List Int × List Int) :=
  if w ≤ buf.length then some (buf.take w, buf.drop h) else none

/-- One window extraction as performed by `speech_to_text.py`:
if the buffer holds at least `w` samples, return the most recent `w` samples
as the window together with the buffer with its oldest `h` samples removed;
otherwise nothing, buffer unchanged. -/
def try_take_window_stt (w h : Nat) (buf : List Int) : Option (List Int × List Int) :=
  if w ≤ buf.length then some (buf.drop (buf.length - w), buf.drop h) else none

/-- Spec-side rendering of §4.1 `try_take_window(window_len, hop_len)`:
"if buffer length ≥ window_len, copies the most recent window_len samples as
the window, then removes the oldest hop_len samples from the buffer, and
returns the window; otherwise returns nothing and leaves the buffer
untouched."  Used only to compare the source variants against the spec. -/
def try_take_window_spec (w h : Nat) (buf : List Int) : Option (List Int × List Int) :=
  if w ≤ buf.length then some (buf.drop (buf.length - w), buf.drop h) else none

/-! ### The drain loop of `speech_to_text.py`

`while buf.size >= WINDOW_SAMPLES: window = buf[-WINDOW_SAMPLES:];
buf = buf[HOP_SAMPLES:]`, collecting the extracted windows in order.
The recursion is fuelled by the buffer length, which bounds the number of
iterations whenever `0 < h` (each iteration removes `h` samples from a
buffer of length at least `w ≥ 1`). -/
def drainGo (w h : Nat) : Nat → List Int → List (List Int) × List Int
  | 0, buf => ([], buf)
  | fuel+1, buf =>
    if w ≤ buf.length then
      let window := buf.drop (buf.length - w)
      let rest := drainGo w h fuel (buf.drop h)
      (window :: rest.1, rest.2)
    else ([], buf)

/-- The full inner `while` loop of `speech_to_text.py`'s `process_loop`:
repeatedly extract the most recent `w` samples and drop the oldest `h`,
until fewer than `w` samples remain.  Returns the windows in extraction
order and the final buffer. -/
def drainStt (w h : Nat) (buf : List Int) : List (List Int) × List Int :=
  drainGo w h buf.length buf

/-- One iteration of the outer loop of `speech_to_text.py`'s `process_loop`:
append the arriving chunk (`buf = np.concatenate((buf, audio_q.get()))`),
then run the inner `while` drain.  The state carries the buffer and the
windows produced so far. -/
def sttFeed (w h : Nat) (st : List Int × List (List Int)) (chunk : List Int) :
    List Int × List (List Int) :=
  let buf := st.1 ++ chunk
  let d := drainStt w h buf
  (d.2, st.2 ++ d.1)

/-- Feed a whole sequence of chunks through `speech_to_text.py`'s
`process_loop`, starting from the empty buffer. -/
def runStt (w h : Nat) (chunks : List (List Int)) : List Int × List (List Int) :=
  chunks.foldl (sttFeed w h) ([], [])

/-! ### Text post-processing and the transcript merge -/

/-- Python `str.strip()` whitespace set restricted to ASCII (the characters
Python strips: space, tab, newline, carriage return, vertical tab, form
feed). -/
def isPyWhitespace (c : Char) : Bool :=
  c = ' ' || c = '\t' || c = '\n' || c = '\r' || c = '\x0b' || c = '\x0c'

/-- Python `text.strip()`: remove leading and trailing whitespace. -/
def pyStrip (s : String) : String :=
  String.mk (((s.toList.dropWhile isPyWhitespace).reverse.dropWhile isPyWhitespace).reverse)

/-- The transcript merge of `speech_to_text.py`'s `process_loop` applied to an
already-stripped text: `if not text: continue` (no mutation, nothing
printed), else `transcript_buf += (" " if transcript_buf else "") + text`
and `text` is printed as the new output.  Returns the updated transcript and
the emitted delta (`none` when nothing is emitted). -/
def mergeCtx (transcript newText : String) : String × Option String :=
  if newText = "" then (transcript, none)
  else ((if transcript = "" then newText else transcript ++ " " ++ newText), some newText)

/-- Transcript after merging a sequence of (already stripped) per-window
texts, starting from the empty transcript. -/
def transcriptAfter (texts : List String) : String :=
  texts.foldl (fun t x => (mergeCtx t x).1) ""

/-- Spec-side rendering of "the concatenation of all non-empty `new_text`
values merged so far, separated by a single space": concatenate a list of
texts with a single space between consecutive entries. -/
def sepConcat : List String → String
  | [] => ""
  | [x] => x
  | x :: y :: ys => x ++ " " ++ sepConcat (y :: ys)

/-- Spec-side transcript: the non-empty merged texts, space-separated. -/
def specTranscript (texts : List String) : String :=
  sepConcat (texts.filter (fun x => x ≠ ""))

/-! ### Float conversion -/

/-- `window.astype(np.float32) / 32768.0` of `main.py` / `speech_to_text.py` /
`stream_asr.py`: each int16 sample is divided by 32768.  The quotient of an
int16 value by 2^15 is exactly representable in float32, so `ℚ` models the
conversion without loss. -/
def audioF32 (window : List Int) : List ℚ :=
  window.map (fun s : Int => (s : ℚ) / 32768)

/-! ### Language detection and translation pairing

`translate_pair` of `main.py` (and the identical branch structure of
`translate_text` in `experiments/translate_text.py`):

```
try:    src = detect(text)
except: src = "en"
if src.startswith("es"): return es_to_en.translate(text), text
return text, en_to_es.translate(text)
```

The `langdetect.detect` call is passed in as an `Except Unit String`
(`.error` models the raised exception the `except` clause catches), and the
two Argos translators as opaque total functions. -/

/-- Python `src.startswith(p)`: `p` is a prefix of `src` (character-wise). -/
def pyStartsWith (s p : String) : Bool := p.toList.isPrefixOf s.toList

def translate_pair (detectRes : Except Unit String) (enToEs esToEn : String → String)
    (text : String) : String × String :=
  let src := match detectRes with
    | Except.ok s => s
    | Except.error _ => "en"
  if pyStartsWith src "es" then (esToEn text, text)
  else (text, enToEs text)

/-- Whether `main.py`'s `translate_pair` classifies the detection outcome as
Spanish: detection succeeded and the returned code starts with "es". -/
def detectedEs : Except Unit String → Bool
  | Except.ok s => pyStartsWith s "es"
  | Except.error _ => false

/-! ### Per-window inference iterations with explicit fault behaviour -/

/-- One buffer-consuming iteration of `stream_asr.py`'s `process_thread`
after a chunk arrival: the `if buffer.shape[0] < CHUNK_SAMPLES: continue`
guard, the segment extraction `segment = buffer[:CHUNK_SAMPLES];
buffer = buffer[CHUNK_SAMPLES:]`, the float conversion, and the
`try: ... except Exception as e: print(...)` around `model.transcribe`.
The inference call is passed in as a function returning `Except`; an
`Except.error` models the caught exception.  Returns the next buffer and the
recognized text that is printed (`none` when nothing is recognized). -/
def asrIter (chunkSamples : Nat) (infer : List ℚ → Except String String)
    (buffer : List Int) : List Int × Option String :=
  if chunkSamples ≤ buffer.length then
    let segment := buffer.take chunkSamples
    let rest := buffer.drop chunkSamples
    let audio := segment.map (fun s : Int => (s : ℚ) / 32768)
    match infer audio with
    | Except.error _ => (rest, none)
    | Except.ok raw =>
      let text := pyStrip raw
      (rest, if text = "" then none else some text)
  else (buffer, none)

/-- One inner-loop iteration of `speech_to_text.py`'s `process_loop`,
including the `model.transcribe` call, which is **not** wrapped in any
`try`/`except` in that file: an exception raised by the call propagates out
of `process_loop` and kills the processing thread.  This is modelled by the
iteration returning `Except.error e` (loop terminated) instead of a next
state.  On success, the text is stripped, merged into the transcript, and
the emitted delta returned. -/
def sttIter (w h : Nat) (infer : List ℚ → String → Except String String)
    (buf : List Int) (transcript : String) :
    Except String (List Int × String × Option String) :=
  if w ≤ buf.length then
    let window := buf.drop (buf.length - w)
    let rest := buf.drop h
    let audio := window.map (fun s : Int => (s : ℚ) / 32768)
    match infer audio transcript with
    | Except.error e => Except.error e
    | Except.ok raw =>
      let text := pyStrip raw
      if text = "" then Except.ok (rest, transcript, none)
      else Except.ok (rest,
        (if transcript = "" then text else transcript ++ " " ++ text), some text)
  else Except.ok (buf, transcript, none)

/-- Text handling of `main.py`'s `process_loop` after inference:
`text = "".flatten(...).strip(); if not text: continue` then
`eng, spa = translate_pair(text, ...)` and the three lines are printed.
Returns `none` when the stripped text is empty (nothing printed, no
translation attempted), else the recognized text with its translation
pair. -/
def mainHandleText (detectRes : Except Unit String) (enToEs esToEn : String → String)
    (raw : String) : Option (String × String × String) :=
  let text := pyStrip raw
  if text = "" then none
  else some (text, translate_pair detectRes enToEs esToEn text)

/-! ## Claims -/

/-- **C1**, counterexample.  The claim states that the window-taking
operation returns the *most recent* `window_len` samples.  `main.py` takes
`buf[:WINDOW_SAMPS]`, the *oldest* `window_len` samples: on buffer
`[1, 2, 3]` with `window_len = 2`, `hop_len = 1` it returns window `[1, 2]`,
whereas the spec's operation (`try_take_window_spec`) returns `[2, 3]`. -/
theorem spec2proof_C1_cex :
    try_take_window_main 2 1 [1, 2, 3] = some ([1, 2], [2, 3])
    ∧ try_take_window_main 2 1 [1, 2, 3] ≠ try_take_window_spec 2 1 [1, 2, 3] := by
  decide

/-- **C1**, amended.  `speech_to_text.py`'s extraction behaves exactly as the
spec's `try_take_window` (most recent `w` samples, oldest `h` removed);
`main.py`'s extraction instead returns the *oldest* `w` samples (and also
removes the oldest `h`); when the buffer is shorter than `w`, both variants
return nothing and leave the buffer unchanged. -/
theorem spec2proof_C1 (w h : Nat) (buf : List Int) :
    try_take_window_stt w h buf = try_take_window_spec w h buf
    ∧ (w ≤ buf.length → try_take_window_main w h buf = some (buf.take w, buf.drop h))
    ∧ (buf.length < w →
        try_take_window_main w h buf = none ∧ try_take_window_stt w h buf = none) := by
  refine ⟨rfl, fun hw => ?_, fun hlt => ⟨?_, ?_⟩⟩
  · simp [try_take_window_main, hw]
  · simp [try_take_window_main, Nat.not_le.mpr hlt]
  · simp [try_take_window_stt, Nat.not_le.mpr hlt]

/-- **C1**, witness for the amended theorem's hypotheses. -/
theorem spec2proof_C1_witness :
    try_take_window_main 2 1 [1, 2, 3] = some (([1, 2, 3] : List Int).take 2, ([1, 2, 3] : List Int).drop 1)
    ∧ try_take_window_main 2 1 [1] = none ∧ try_take_window_stt 2 1 [1] = none :=
  ⟨(spec2proof_C1 2 1 [1, 2, 3]).2.1 (by decide),
   (spec2proof_C1 2 1 [1]).2.2 (by decide)⟩

/-- **C4**.  The sources contain no validation of the hop/window relationship
whatsoever (the constraint appears only in a comment); with
`hop_len > window_len` both extraction variants still produce a window,
contradicting the claim that such a configuration fails with a
`ConfigurationError` and never produces a window.  At `window_len = 2`,
`hop_len = 3`, buffer `[1, 2, 3, 4]`: both variants return a window. -/
theorem spec2proof_C4 :
    try_take_window_stt 2 3 [1, 2, 3, 4] = some ([3, 4], [4])
    ∧ try_take_window_main 2 3 [1, 2, 3, 4] = some ([1, 2], [4]) := by
  decide

/-- **C7**.  When language identification raises (`detectRes = .error`),
`translate_pair` deterministically falls back to treating the text as
English: the result pairs the original text as the English side with its
translation as the Spanish side.  The embedded function is total, so the
pairing call never propagates the identification failure. -/
theorem spec2proof_C7 (enToEs esToEn : String → String) (text : String) :
    translate_pair (Except.error ()) enToEs esToEn text = (text, enToEs text) := by
  have h : pyStartsWith "en" "es" = false := by decide
  simp [translate_pair, h]

/-- **C9**.  `translate_pair` always returns the input text verbatim as one
component: as the Spanish side when detection yields a code starting with
"es", and as the English side in every other case (including detection
failure); the other component is the corresponding translation. -/
theorem spec2proof_C9 (r : Except Unit String) (enToEs esToEn : String → String)
    (text : String) :
    (detectedEs r = true →
      translate_pair r enToEs esToEn text = (esToEn text, text))
    ∧ (detectedEs r = false →
      translate_pair r enToEs esToEn text = (text, enToEs text)) := by
  cases r with
  | ok s =>
    constructor
    · intro hs
      simp only [detectedEs] at hs
      simp [translate_pair, hs]
    · intro hs
      simp only [detectedEs] at hs
      simp [translate_pair, hs]
  | error e =>
    constructor
    · intro hs
      simp [detectedEs] at hs
    · intro _
      have h : pyStartsWith "en" "es" = false := by decide
      simp [translate_pair, h]

/-- **C9**, witness: detection yielding "es" pairs the input verbatim as the
Spanish side; a failed detection pairs it as the English side. -/
theorem spec2proof_C9_witness :
    translate_pair (Except.ok "es") String.toUpper String.toLower "Hola" =
      (String.toLower "Hola", "Hola")
    ∧ translate_pair (Except.error ()) String.toUpper String.toLower "Hola" =
      ("Hola", String.toUpper "Hola") :=
  ⟨(spec2proof_C9 (Except.ok "es") String.toUpper String.toLower "Hola").1 (by decide),
   (spec2proof_C9 (Except.error ()) String.toUpper String.toLower "Hola").2 (by decide)⟩

/-! ## Whitespace-only text (C10) -/

theorem dropWhile_eq_nil_of_forall (p : Char → Bool) :
    ∀ l : List Char, (∀ c ∈ l, p c = true) → l.dropWhile p = []
  | [], _ => rfl
  | c :: cs, h => by
    have hc : p c = true := h c (List.mem_cons_self c cs)
    rw [List.dropWhile_cons_of_pos hc]
    exact dropWhile_eq_nil_of_forall p cs (fun x hx => h x (List.mem_cons_of_mem c hx))

theorem pyStrip_of_whitespace (raw : String)
    (hw : ∀ c ∈ raw.toList, isPyWhitespace c = true) : pyStrip raw = "" := by
  unfold pyStrip
  rw [dropWhile_eq_nil_of_forall isPyWhitespace raw.toList hw]
  rfl

/-- **C10**.  A whitespace-only inference text behaves exactly as empty text:
the text is stripped before the emptiness check, so `main.py` prints nothing
and attempts no translation (`mainHandleText` returns `none`, the same as on
`""`), and the transcript merge of `speech_to_text.py` leaves the transcript
unchanged and emits nothing. -/
theorem spec2proof_C10 (raw transcript : String) (detectRes : Except Unit String)
    (enToEs esToEn : String → String)
    (hw : ∀ c ∈ raw.toList, isPyWhitespace c = true) :
    pyStrip raw = ""
    ∧ mainHandleText detectRes enToEs esToEn raw = none
    ∧ mainHandleText detectRes enToEs esToEn raw = mainHandleText detectRes enToEs esToEn ""
    ∧ mergeCtx transcript (pyStrip raw) = (transcript, none) := by
  have h0 : pyStrip raw = "" := pyStrip_of_whitespace raw hw
  have h1 : pyStrip "" = "" := rfl
  refine ⟨h0, ?_, ?_, ?_⟩
  · simp [mainHandleText, h0]
  · simp [mainHandleText, h0, h1]
  · simp [mergeCtx, h0]

/-- **C10**, witness at the whitespace-only text `" \t\n "`. -/
theorem spec2proof_C10_witness :
    (∀ c ∈ (" \t\n " : String).toList, isPyWhitespace c = true)
    ∧ (pyStrip " \t\n " = ""
      ∧ mainHandleText (Except.error ()) id id " \t\n " = none
      ∧ mainHandleText (Except.error ()) id id " \t\n " = mainHandleText (Except.error ()) id id ""
      ∧ mergeCtx "hello" (pyStrip " \t\n ") = ("hello", none)) :=
  ⟨by decide, spec2proof_C10 " \t\n " "hello" (Except.error ()) id id (by decide)⟩

/-! ## Transcript merge invariants (C3) -/

theorem mergeCtx_length_mono (t x : String) : t.length ≤ (mergeCtx t x).1.length := by
  unfold mergeCtx
  by_cases hx : x = ""
  · simp [hx]
  · by_cases ht : t = ""
    · simp [hx, ht]
    · simp [hx, ht, String.length_append]
      omega

theorem string_append_sep_ne_empty (a b : String) : a ++ " " ++ b ≠ "" := by
  intro hc
  have hlen := congrArg String.length hc
  simp [String.length_append] at hlen
  exact absurd hlen.1.2 (by decide)

theorem sepConcat_glue (a b : String) (l : List String) :
    sepConcat ((a ++ " " ++ b) :: l) = a ++ " " ++ sepConcat (b :: l) := by
  cases l with
  | nil => rfl
  | cons y ys => simp [sepConcat, String.append_assoc]

theorem foldMerge_from (texts : List String) : ∀ t : String, t ≠ "" →
    texts.foldl (fun a x => (mergeCtx a x).1) t
      = sepConcat (t :: texts.filter (fun x => x ≠ "")) := by
  induction texts with
  | nil => intro t _; rfl
  | cons x xs ih =>
    intro t ht
    by_cases hx : x = ""
    · subst hx
      have hstep : (mergeCtx t "").1 = t := rfl
      have hfil : List.filter (fun y => y ≠ "") ("" :: xs) = List.filter (fun y => y ≠ "") xs := by
        simp
      rw [List.foldl_cons, hstep, hfil]
      exact ih t ht
    · have hstep : (mergeCtx t x).1 = t ++ " " ++ x := by simp [mergeCtx, hx, ht]
      have hne : (t ++ " " ++ x) ≠ "" := string_append_sep_ne_empty t x
      have hfil : List.filter (fun y => y ≠ "") (x :: xs)
          = x :: List.filter (fun y => y ≠ "") xs := by
        simp [hx]
      rw [List.foldl_cons, hstep, hfil, ih (t ++ " " ++ x) hne, sepConcat_glue]
      rfl

theorem transcriptAfter_eq_specTranscript (texts : List String) :
    transcriptAfter texts = specTranscript texts := by
  unfold transcriptAfter specTranscript
  induction texts with
  | nil => rfl
  | cons x xs ih =>
    by_cases hx : x = ""
    · subst hx
      have hstep : (mergeCtx "" "").1 = "" := rfl
      have hfil : List.filter (fun y => y ≠ "") ("" :: xs) = List.filter (fun y => y ≠ "") xs := by
        simp
      rw [List.foldl_cons, hstep, hfil]
      exact ih
    · have hstep : (mergeCtx "" x).1 = x := by simp [mergeCtx, hx]
      have hfil : List.filter (fun y => y ≠ "") (x :: xs)
          = x :: List.filter (fun y => y ≠ "") xs := by
        simp [hx]
      rw [List.foldl_cons, hstep, hfil]
      exact foldMerge_from xs x hx

/-- **C3**.  Under the context-biased cumulative policy of
`speech_to_text.py`: a merge never shortens the transcript (character count
is non-decreasing across cycles); the transcript after any sequence of
merges equals the single-space-separated concatenation of all non-empty
`new_text` values merged so far; and merging an empty `new_text` is a no-op
that emits nothing. -/
theorem spec2proof_C3 :
    (∀ t x : String, t.length ≤ (mergeCtx t x).1.length)
    ∧ (∀ texts : List String, transcriptAfter texts = specTranscript texts)
    ∧ (∀ t : String, mergeCtx t "" = (t, none)) :=
  ⟨mergeCtx_length_mono, transcriptAfter_eq_specTranscript, fun _ => rfl⟩

/-! ## Float conversion bounds (C8) -/

/-- **C8**.  The audio handed to `model.transcribe` is elementwise the int16
sample divided by 32768, and, for int16-ranged samples, every converted
value lies in `[-1, 1]`. -/
theorem spec2proof_C8 (window : List Int)
    (hw : ∀ s ∈ window, -32768 ≤ s ∧ s ≤ 32767) :
    (∀ i : Nat, (audioF32 window)[i]? = (window[i]?).map (fun s : Int => (s : ℚ) / 32768))
    ∧ ∀ x ∈ audioF32 window, -1 ≤ x ∧ x ≤ 1 := by
  constructor
  · intro i
    rw [audioF32, List.getElem?_map]
  · intro x hx
    simp only [audioF32] at hx
    rcases List.mem_map.mp hx with ⟨s, hs, rfl⟩
    obtain ⟨h1, h2⟩ := hw s hs
    constructor
    · rw [le_div_iff₀ (by norm_num : (0 : ℚ) < 32768)]
      have hc : ((-32768 : Int) : ℚ) ≤ (s : ℚ) := by exact_mod_cast h1
      push_cast at hc
      linarith
    · rw [div_le_one (by norm_num : (0 : ℚ) < 32768)]
      have hc : (s : ℚ) ≤ ((32767 : Int) : ℚ) := by exact_mod_cast h2
      push_cast at hc
      linarith

/-- **C8**, witness at the extreme int16 values. -/
theorem spec2proof_C8_witness :
    (∀ s ∈ ([-32768, 0, 32767] : List Int), -32768 ≤ s ∧ s ≤ 32767)
    ∧ ((∀ i : Nat, (audioF32 [-32768, 0, 32767])[i]?
          = (([-32768, 0, 32767] : List Int)[i]?).map (fun s : Int => (s : ℚ) / 32768))
      ∧ ∀ x ∈ audioF32 [-32768, 0, 32767], -1 ≤ x ∧ x ≤ 1) :=
  ⟨by decide, spec2proof_C8 [-32768, 0, 32767] (by decide)⟩

/-! ## Inference-fault behaviour (C5) -/

/-- **C5**, counterexample.  In `speech_to_text.py` the `model.transcribe`
call is not guarded by any `try`/`except`: an inference error terminates the
processing loop (`sttIter` returns `Except.error`) instead of being treated
as empty text and continuing, contradicting the claim for that file. -/
theorem spec2proof_C5_cex :
    sttIter 2 1 (fun _ _ => Except.error "fault") [1, 2] "" = Except.error "fault"
    ∧ sttIter 2 1 (fun _ _ => Except.ok "") [1, 2] "" = Except.ok ([2], "", none)
    ∧ (Except.error "fault" : Except String (List Int × String × Option String))
        ≠ Except.ok ([2], "", none) := by
  refine ⟨rfl, rfl, fun hc => Except.noConfusion hc⟩

/-- **C5**, amended.  In `stream_asr.py` the inference call is wrapped in
`try`/`except`, and an inference error is handled exactly as an empty-text
result: the buffer passed to the next window and the (absent) emission are
identical, and the loop continues.  In `speech_to_text.py` there is no
handler: whenever a full window is available, an error raised by the
inference call propagates and terminates the processing loop. -/
theorem spec2proof_C5 (cs : Nat) (buffer : List Int) (e : String) :
    asrIter cs (fun _ => Except.error e) buffer = asrIter cs (fun _ => Except.ok "") buffer
    ∧ ∀ (w h : Nat) (buf : List Int) (t : String), w ≤ buf.length →
        sttIter w h (fun _ _ => Except.error e) buf t = Except.error e := by
  constructor
  · unfold asrIter
    by_cases hc : cs ≤ buffer.length
    · simp [hc, pyStrip]
    · simp [hc]
  · intro w h buf t hw
    simp [sttIter, hw]

/-- **C5**, witness. -/
theorem spec2proof_C5_witness :
    (asrIter 1 (fun _ => Except.error "x") [7] = asrIter 1 (fun _ => Except.ok "") [7])
    ∧ (1 ≤ ([5] : List Int).length
      ∧ sttIter 1 1 (fun _ _ => Except.error "x") [5] "" = Except.error "x") :=
  ⟨(spec2proof_C5 1 [7] "x").1, by decide,
   (spec2proof_C5 1 [7] "x").2 1 1 [5] "" (by decide)⟩

/-! ## Drain-loop characterization (C2, C6)

Behaviour of `speech_to_text.py`'s inner `while` loop. -/

theorem drainGo_stop (w h fuel : Nat) (buf : List Int) (hlt : buf.length < w) :
    drainGo w h fuel buf = ([], buf) := by
  cases fuel with
  | zero => rfl
  | succ f => simp [drainGo, Nat.not_le.mpr hlt]

theorem drainGo_one (w h : Nat) (hh : 0 < h) (fuel : Nat) (hf : 0 < fuel)
    (buf : List Int) (hlen : buf.length = w) (hw : 0 < w) :
    drainGo w h fuel buf = ([buf], buf.drop h) := by
  cases fuel with
  | zero => exact absurd hf (by omega)
  | succ f =>
    have hcond : w ≤ buf.length := le_of_eq hlen.symm
    have hsub : buf.length - w = 0 := by omega
    have hdrop : (buf.drop h).length < w := by
      rw [List.length_drop, hlen]
      omega
    simp [drainGo, hcond, hsub, drainGo_stop w h f _ hdrop]

theorem drainStt_stop (w h : Nat) (buf : List Int) (hlt : buf.length < w) :
    drainStt w h buf = ([], buf) :=
  drainGo_stop w h buf.length buf hlt

theorem drainStt_one (w h : Nat) (hh : 0 < h) (buf : List Int)
    (hlen : buf.length = w) (hw : 0 < w) :
    drainStt w h buf = ([buf], buf.drop h) :=
  drainGo_one w h hh buf.length (by omega) buf hlen hw

theorem flatten_length_uniform (h : Nat) : ∀ chunks : List (List Int),
    (∀ c ∈ chunks, c.length = h) → chunks.flatten.length = chunks.length * h
  | [], _ => by simp
  | c :: cs, hc => by
    have h1 : c.length = h := hc c (List.mem_cons_self c cs)
    have h2 := flatten_length_uniform h cs (fun x hx => hc x (List.mem_cons_of_mem c hx))
    simp only [List.flatten_cons, List.length_append, List.length_cons, h1, h2]
    ring

/-- Full characterization of `speech_to_text.py`'s `process_loop` when the
chunks arrive in hop-sized units (each append has length `h`) and
`window_len = m * h`: after feeding `n` chunks, the windows produced so far
are exactly the slices of the appended stream starting at `0, h, 2h, …,
(n-m)·h`, each of length `m·h`, and the buffer retains the samples from
index `(n+1-m)·h` on. -/
theorem runStt_spec (m h : Nat) (hm : 0 < m) (hh : 0 < h) :
    ∀ chunks : List (List Int), (∀ c ∈ chunks, c.length = h) →
    runStt (m*h) h chunks =
      (chunks.flatten.drop ((chunks.length + 1 - m) * h),
       (List.range (chunks.length + 1 - m)).map
         (fun k => (chunks.flatten.drop (k*h)).take (m*h))) := by
  intro chunks
  induction chunks using List.reverseRecOn with
  | nil =>
    intro _
    have h0 : 0 + 1 - m = 0 := by omega
    simp [runStt, h0]
  | append_singleton l c ih =>
    intro hc
    have hcl : c.length = h := hc c (by simp)
    have hprev : ∀ x ∈ l, x.length = h := fun x hx => hc x (by simp [hx])
    have hjl : l.flatten.length = l.length * h := flatten_length_uniform h l hprev
    have hrun : runStt (m*h) h (l ++ [c]) = sttFeed (m*h) h (runStt (m*h) h l) c := by
      simp [runStt, List.foldl_append]
    have hlapp : (l ++ [c]).length = l.length + 1 := by simp
    have hJ : (l ++ [c]).flatten = l.flatten ++ c := by simp
    rw [hrun, ih hprev, hlapp, hJ]
    by_cases hcase : l.length + 1 < m
    · -- not yet a full window: the drain does nothing
      have h0 : l.length + 1 - m = 0 := by omega
      have h0' : l.length + 1 + 1 - m = 0 := by omega
      have hlenJ : (l.flatten ++ c).length = (l.length + 1) * h := by
        simp [List.length_append, hjl, hcl]
        ring
      have hlt : (l.flatten ++ c).length < m * h := by
        rw [hlenJ]
        exact (Nat.mul_lt_mul_right hh).mpr hcase
      simp only [sttFeed, h0, h0', Nat.zero_mul, List.drop_zero]
      rw [drainStt_stop (m*h) h (l.flatten ++ c) hlt]
      simp
    · -- exactly one new window is drained
      have hmn : m ≤ l.length + 1 := by omega
      have hk1 : l.length + 1 - m ≤ l.length := by omega
      have hmul1 : (l.length + 1 - m) * h ≤ l.flatten.length := by
        rw [hjl]
        exact Nat.mul_le_mul_right h hk1
      have hbufsplit : (l.flatten ++ c).drop ((l.length + 1 - m) * h)
          = l.flatten.drop ((l.length + 1 - m) * h) ++ c :=
        List.drop_append_of_le_length hmul1
      have hdroplen : (l.flatten.drop ((l.length + 1 - m) * h)).length = (m - 1) * h := by
        rw [List.length_drop, hjl, ← Nat.sub_mul]
        congr 1
        omega
      have hbuflen : (l.flatten.drop ((l.length + 1 - m) * h) ++ c).length = m * h := by
        rw [List.length_append, hdroplen, hcl, ← Nat.succ_mul]
        congr 1
        omega
      have hdrain := drainStt_one (m*h) h hh
        (l.flatten.drop ((l.length + 1 - m) * h) ++ c) hbuflen (Nat.mul_pos hm hh)
      simp only [sttFeed, hdrain]
      have hfst : List.drop h (l.flatten.drop ((l.length + 1 - m) * h) ++ c)
          = (l.flatten ++ c).drop ((l.length + 1 + 1 - m) * h) := by
        rw [← hbufsplit, List.drop_drop]
        congr 1
        have hs : l.length + 1 + 1 - m = (l.length + 1 - m) + 1 := by omega
        rw [hs, Nat.succ_mul]
      have hwin : (List.range (l.length + 1 - m)).map
            (fun k => (l.flatten.drop (k * h)).take (m * h))
            ++ [l.flatten.drop ((l.length + 1 - m) * h) ++ c]
          = (List.range (l.length + 1 + 1 - m)).map
            (fun k => ((l.flatten ++ c).drop (k * h)).take (m * h)) := by
        have hsucc : l.length + 1 + 1 - m = (l.length + 1 - m) + 1 := by omega
        rw [hsucc, List.range_succ, List.map_append, List.map_singleton]
        congr 1
        · -- earlier windows are unchanged by the append
          apply List.map_congr_left
          intro k hk
          have hkm : k < l.length + 1 - m := List.mem_range.mp hk
          have hkle : k * h ≤ l.flatten.length := by
            rw [hjl]
            exact Nat.mul_le_mul_right h (by omega)
          rw [List.drop_append_of_le_length hkle]
          have htlen : m * h ≤ (l.flatten.drop (k * h)).length := by
            rw [List.length_drop, hjl, ← Nat.sub_mul]
            exact Nat.mul_le_mul_right h (by omega)
          rw [List.take_append_of_le_length htlen]
        · -- the new window is the newest m·h samples
          rw [hbufsplit, List.take_of_length_le (le_of_eq hbuflen)]
      exact Prod.ext hfst hwin

/-- **C2**, counterexample.  When a single append makes multiple windows
satisfiable, the repeated extraction of `speech_to_text.py` does *not*
advance the window start by `hop_len`: with `window_len = 2`, `hop_len = 1`,
a single appended chunk `[1, 2, 3]` yields the duplicate windows
`[2, 3], [2, 3]` (equal start indices), and the appended sample `1` appears
in no produced window. -/
theorem spec2proof_C2_cex :
    runStt 2 1 [[1, 2, 3]] = ([3], [[2, 3], [2, 3]])
    ∧ ∀ win ∈ (runStt 2 1 [[1, 2, 3]]).2, (1 : Int) ∉ win := by
  decide

/-- **C2**, amended.  When the appended chunks arrive in hop-sized units
(every chunk has length `hop_len = h`) and `window_len = m·h`, the windows
produced by `speech_to_text.py`'s loop are exactly the contiguous slices of
the appended stream starting at `0, h, 2h, …` — so every window preserves
the original sample order, the start index of window `k+1` is that of
window `k` plus `hop_len`, and (second conjunct) once at least `m` chunks
have arrived, every appended sample index lies inside at least one produced
window's index range `[k·h, k·h + m·h)`. -/
theorem spec2proof_C2 (m h : Nat) (hm : 0 < m) (hh : 0 < h) (chunks : List (List Int))
    (hc : ∀ c ∈ chunks, c.length = h) :
    (runStt (m*h) h chunks).2
      = (List.range (chunks.length + 1 - m)).map
          (fun k => (chunks.flatten.drop (k*h)).take (m*h))
    ∧ (m ≤ chunks.length → ∀ i, i < chunks.length * h →
        ∃ k, k < chunks.length + 1 - m ∧ k*h ≤ i ∧ i < k*h + m*h) := by
  constructor
  · rw [runStt_spec m h hm hh chunks hc]
  · intro hmn i hi
    refine ⟨min (i / h) (chunks.length - m), ?_, ?_, ?_⟩
    · have hlt : chunks.length - m < chunks.length + 1 - m := by omega
      exact lt_of_le_of_lt (min_le_right _ _) hlt
    · calc min (i / h) (chunks.length - m) * h
          ≤ (i / h) * h := Nat.mul_le_mul_right h (min_le_left _ _)
        _ ≤ i := Nat.div_mul_le_self i h
    · rcases le_or_lt (i / h) (chunks.length - m) with hle | hlt
      · rw [min_eq_left hle]
        have hdm := Nat.div_add_mod i h
        have hmod : i % h < h := Nat.mod_lt i hh
        have h1 : i < (i / h) * h + h := by
          calc i = h * (i / h) + i % h := hdm.symm
            _ < h * (i / h) + h := Nat.add_lt_add_left hmod _
            _ = (i / h) * h + h := by rw [Nat.mul_comm]
        have h2 : h ≤ m * h := Nat.le_mul_of_pos_left h hm
        exact lt_of_lt_of_le h1 (Nat.add_le_add_left h2 _)
      · rw [min_eq_right (le_of_lt hlt)]
        have hsum : (chunks.length - m) * h + m * h = chunks.length * h := by
          rw [← Nat.add_mul, Nat.sub_add_cancel hmn]
        rw [hsum]
        exact hi

/-- **C2**, witness: two hop-sized chunks with `window_len = 2·hop_len`. -/
theorem spec2proof_C2_witness :
    (∀ c ∈ ([[5], [6]] : List (List Int)), c.length = 1)
    ∧ (runStt (2*1) 1 [[5], [6]]).2
        = (List.range (([[5], [6]] : List (List Int)).length + 1 - 2)).map
            (fun k => ((([[5], [6]] : List (List Int)).flatten.drop (k*1)).take (2*1)))
    ∧ 2 ≤ ([[5], [6]] : List (List Int)).length
    ∧ ∃ k, k < ([[5], [6]] : List (List Int)).length + 1 - 2 ∧ k*1 ≤ 0 ∧ 0 < k*1 + 2*1 :=
  ⟨by decide,
   (spec2proof_C2 2 1 (by decide) (by decide) [[5], [6]] (by decide)).1,
   by decide,
   (spec2proof_C2 2 1 (by decide) (by decide) [[5], [6]] (by decide)).2 (by decide) 0 (by decide)⟩

/-- **C6**.  With `sample_rate = 16000`, `window_seconds = 10`,
`hop_seconds = 1` (`speech_to_text.py`: `WINDOW_SAMPLES = 160000`,
`HOP_SAMPLES = 16000`), feeding `n` chunks of 16000 samples produces
exactly `n + 1 - 10` windows (so none before the tenth feed, exactly one
upon the tenth, and one more per subsequent feed), each of exactly 160000
samples. -/
theorem spec2proof_C6 (chunks : List (List Int)) (hc : ∀ c ∈ chunks, c.length = 16000) :
    (runStt 160000 16000 chunks).2.length = chunks.length + 1 - 10
    ∧ ∀ win ∈ (runStt 160000 16000 chunks).2, win.length = 160000 := by
  have hmh : (160000 : Nat) = 10 * 16000 := by norm_num
  rw [hmh]
  rw [runStt_spec 10 16000 (by norm_num) (by norm_num) chunks hc]
  constructor
  · simp
  · intro win hwin
    simp only [List.mem_map, List.mem_range] at hwin
    obtain ⟨k, hk, rfl⟩ := hwin
    have hflat : chunks.flatten.length = chunks.length * 16000 :=
      flatten_length_uniform 16000 chunks hc
    rw [List.length_take, List.length_drop, hflat]
    have h1 : 10 * 16000 ≤ chunks.length * 16000 - k * 16000 := by
      rw [← Nat.sub_mul]
      apply Nat.mul_le_mul_right
      omega
    omega

/-- **C6**, witness. -/
theorem spec2proof_C6_witness :
    (∀ c ∈ ([] : List (List Int)), c.length = 16000)
    ∧ ((runStt 160000 16000 ([] : List (List Int))).2.length
          = ([] : List (List Int)).length + 1 - 10
      ∧ ∀ win ∈ (runStt 160000 16000 ([] : List (List Int))).2, win.length = 160000) :=
  ⟨by simp, spec2proof_C6 [] (by simp)⟩
